import Mathlib

/-!
Shallow embedding of the frequency-detector core (Go package detectors:
the differentiator FrequencyDetector and the PLLFrequencyDetector, plus
the configuration-driven factory).

Modelling conventions:
* Go float64 arithmetic is modelled by exact real numbers, complex128 by ℂ.
* Go math.Atan2 is modelled by Complex.arg of the corresponding complex
  number (both send (0,0) to 0 and produce angles in (-pi, pi]).
* Go math.Mod is modelled by truncated-division remainder on ℝ.
* The NaN sentinel used for the prevPhase field is modelled by Option ℝ
  (none before the first sample); NaN is unrepresentable in ℝ.
* Constructors that panic on invalid parameters are modelled as
  Option-returning functions (none on invalid input); mk… functions build
  the state record itself, exactly as the Go struct literal does.
* Mutating methods are modelled by state passing: a method that mutates the
  receiver and returns a value becomes a function returning a pair of the
  value and the updated state.
-/

noncomputable section

open Real

/-- Model of Go math.Atan2 on exact reals: the argument of the complex
number x + y*I, lying in the interval Ioc (-pi) pi, with atan2 0 0 = 0. -/
def atan2 (y x : ℝ) : ℝ := Complex.arg ⟨x, y⟩

/-- Truncation toward zero, as used by Go math.Mod. -/
def rtrunc (q : ℝ) : ℝ := if 0 ≤ q then (⌊q⌋ : ℝ) else (⌈q⌉ : ℝ)

/-- Model of Go math.Mod: x - trunc(x/y)*y. The result has the sign of x
and magnitude smaller than the magnitude of y. -/
def mathMod (x y : ℝ) : ℝ := x - y * rtrunc (x / y)

/-- State of the differentiator-based FrequencyDetector (Go struct
FrequencyDetector). prevPhase uses none for the Go NaN sentinel. -/
structure FrequencyDetector where
  sampleRate : ℝ
  prevSignal : ℂ
  prevPhase : Option ℝ
  unwrapOffset : ℝ
  alpha : ℝ
  smoothedFreq : ℝ
  smoothInitialized : Bool

namespace FrequencyDetector

/-- The struct literal built by NewFrequencyDetector once validation
passed: default smoothing 0.1, unset previous phase. -/
def mkFrequencyDetector (sampleRate : ℝ) : FrequencyDetector :=
  { sampleRate := sampleRate
    prevSignal := ⟨0, 0⟩
    prevPhase := none
    unwrapOffset := 0
    alpha := 0.1
    smoothedFreq := 0
    smoothInitialized := false }

/-- Go NewFrequencyDetector: panics (none) when sampleRate ≤ 0. -/
def NewFrequencyDetector (sampleRate : ℝ) : Option FrequencyDetector :=
  if sampleRate ≤ 0 then none else some (mkFrequencyDetector sampleRate)

/-- Go SetSmoothingFactor: clamps the factor to [0, 1] and clears the
smoothing-initialized flag. -/
def SetSmoothingFactor (fd : FrequencyDetector) (alpha : ℝ) : FrequencyDetector :=
  let a := if alpha < 0 then 0 else if alpha > 1 then 1 else alpha
  { fd with alpha := a, smoothInitialized := false }

/-- Go calculatePhase: phase of a complex number via Atan2. -/
def calculatePhase (signal : ℂ) : ℝ := atan2 signal.im signal.re

/-- Go preventUnwrapOverflow: when the unwrap offset magnitude exceeds
1e6 * 2 * pi, fold both the offset and the previous phase modulo 2*pi. -/
def preventUnwrapOverflow (fd : FrequencyDetector) : FrequencyDetector :=
  let maxOffset : ℝ := 1e6 * 2 * π
  if |fd.unwrapOffset| > maxOffset then
    { fd with unwrapOffset := mathMod fd.unwrapOffset (2 * π)
              prevPhase := fd.prevPhase.map (fun p => mathMod p (2 * π)) }
  else fd

/-- Go unwrapPhaseDiff: fold a raw phase difference into (-pi, pi] by a
single 2*pi correction, accumulate it into unwrapOffset and prevPhase,
then apply the overflow guard. Returns the corrected difference and the
updated state. -/
def unwrapPhaseDiff (fd : FrequencyDetector) (phaseDiff : ℝ) : ℝ × FrequencyDetector :=
  let pd := if phaseDiff > π then phaseDiff - 2 * π
            else if phaseDiff < -π then phaseDiff + 2 * π
            else phaseDiff
  let fd1 := { fd with unwrapOffset := fd.unwrapOffset + pd
                       prevPhase := fd.prevPhase.map (fun p => p + pd) }
  (pd, preventUnwrapOverflow fd1)

/-- Go computePhaseDifference: multiply the current sample by the complex
conjugate of the previous one, take the angle, and unwrap. -/
def computePhaseDifference (fd : FrequencyDetector) (current : ℂ) : ℝ × FrequencyDetector :=
  let conjugatePrev : ℂ := ⟨fd.prevSignal.re, -fd.prevSignal.im⟩
  let product := current * conjugatePrev
  let phaseDiff := atan2 product.im product.re
  unwrapPhaseDiff fd phaseDiff

/-- Go FrequencyDetector.limitFrequency: clamp to the Nyquist band. -/
def limitFrequency (fd : FrequencyDetector) (freq : ℝ) : ℝ :=
  let nyquistLimit := fd.sampleRate / 2
  if freq > nyquistLimit then nyquistLimit
  else if freq < -nyquistLimit then -nyquistLimit
  else freq

/-- Go smoothFrequency: exponential moving average, seeded from the first
value after (re)initialization. -/
def smoothFrequency (fd : FrequencyDetector) (currentFreq : ℝ) : ℝ × FrequencyDetector :=
  if fd.smoothInitialized = false then
    (currentFreq, { fd with smoothedFreq := currentFreq, smoothInitialized := true })
  else
    let s := fd.alpha * currentFreq + (1 - fd.alpha) * fd.smoothedFreq
    (s, { fd with smoothedFreq := s })

/-- Go DetectFrequency: on the first call (prevPhase unset) record the
phase of the sample and return 0; otherwise compute the unwrapped phase
difference, convert to Hz, clamp to Nyquist, optionally smooth, and
record the sample as the new previous signal. -/
def DetectFrequency (fd : FrequencyDetector) (signal : ℂ) : ℝ × FrequencyDetector :=
  match fd.prevPhase with
  | none =>
      (0, { fd with prevSignal := signal, prevPhase := some (calculatePhase signal) })
  | some _ =>
      let r1 := computePhaseDifference fd signal
      let instantaneousFreq := r1.1 * r1.2.sampleRate / (2 * π)
      let limited := limitFrequency r1.2 instantaneousFreq
      let r2 := if r1.2.alpha > 0 then smoothFrequency r1.2 limited else (limited, r1.2)
      (r2.1, { r2.2 with prevSignal := signal })

/-- Go ProcessBlock: apply DetectFrequency sequentially, threading state. -/
def ProcessBlock (fd : FrequencyDetector) (signals : List ℂ) : List ℝ × FrequencyDetector :=
  match signals with
  | [] => ([], fd)
  | s :: rest =>
      let r := DetectFrequency fd s
      let rr := ProcessBlock r.2 rest
      (r.1 :: rr.1, rr.2)

/-- Go Reset: clear the previous sample, previous phase (back to the
sentinel), unwrap offset and smoothing state. -/
def Reset (fd : FrequencyDetector) : FrequencyDetector :=
  { fd with prevSignal := ⟨0, 0⟩
            prevPhase := none
            unwrapOffset := 0
            smoothedFreq := 0
            smoothInitialized := false }

/-- Go GetInstantaneousPhase: prevPhase + unwrapOffset normalized into
the interval from 0 inclusive to 2*pi exclusive; 0 before any sample. -/
def GetInstantaneousPhase (fd : FrequencyDetector) : ℝ :=
  match fd.prevPhase with
  | none => 0
  | some p =>
      let currentPhase := mathMod (p + fd.unwrapOffset) (2 * π)
      if currentPhase < 0 then currentPhase + 2 * π else currentPhase

/-- Go GetUnwrapOffset. -/
def GetUnwrapOffset (fd : FrequencyDetector) : ℝ := fd.unwrapOffset

end FrequencyDetector

/-- State of the PLL-based detector (Go struct PLLFrequencyDetector). -/
structure PLLFrequencyDetector where
  sampleRate : ℝ
  phase : ℝ
  frequency : ℝ
  alpha : ℝ
  beta : ℝ
  bandwidth : ℝ

namespace PLLFrequencyDetector

/-- The struct literal built by NewPLLFrequencyDetector once validation
passed: second-order loop gains for damping 0.707 and normalized natural
frequency 2*pi*bandwidth/sampleRate, zero initial phase and frequency. -/
def mkPLLFrequencyDetector (sampleRate bandwidth : ℝ) : PLLFrequencyDetector :=
  let damping : ℝ := 0.707
  let naturalFreq := 2 * π * bandwidth / sampleRate
  let alpha := (4 * damping * naturalFreq) /
    (4 + 4 * damping * naturalFreq + naturalFreq ^ 2)
  let beta := (4 * naturalFreq ^ 2) /
    (4 + 4 * damping * naturalFreq + naturalFreq ^ 2)
  { sampleRate := sampleRate
    phase := 0
    frequency := 0
    alpha := alpha
    beta := beta
    bandwidth := bandwidth }

/-- Go NewPLLFrequencyDetector: panics (none) when sampleRate ≤ 0 or
bandwidth ≤ 0. -/
def NewPLLFrequencyDetector (sampleRate bandwidth : ℝ) : Option PLLFrequencyDetector :=
  if sampleRate ≤ 0 then none
  else if bandwidth ≤ 0 then none
  else some (mkPLLFrequencyDetector sampleRate bandwidth)

/-- Go SetBandwidth: silently ignore a non-positive bandwidth; otherwise
store it and recompute both loop gains from it. -/
def SetBandwidth (pll : PLLFrequencyDetector) (bandwidth : ℝ) : PLLFrequencyDetector :=
  if bandwidth ≤ 0 then pll
  else
    let naturalFreq := 2 * π * bandwidth / pll.sampleRate
    let damping : ℝ := 0.707
    { pll with
        bandwidth := bandwidth
        alpha := (4 * damping * naturalFreq) /
          (4 + 4 * damping * naturalFreq + naturalFreq ^ 2)
        beta := (4 * naturalFreq ^ 2) /
          (4 + 4 * damping * naturalFreq + naturalFreq ^ 2) }

/-- Go limitNormalizedFrequency: clamp the normalized frequency to the
interval [-0.5, 0.5]. -/
def limitNormalizedFrequency (pll : PLLFrequencyDetector) : PLLFrequencyDetector :=
  let maxNormalizedFreq : ℝ := 0.5
  { pll with frequency :=
      if pll.frequency > maxNormalizedFreq then maxNormalizedFreq
      else if pll.frequency < -maxNormalizedFreq then -maxNormalizedFreq
      else pll.frequency }

/-- Go normalizePhase: wrap the phase into [0, 2*pi) via math.Mod with a
correction for a negative remainder. -/
def normalizePhase (pll : PLLFrequencyDetector) : PLLFrequencyDetector :=
  let p := mathMod pll.phase (2 * π)
  { pll with phase := if p < 0 then p + 2 * π else p }

/-- Go PLLFrequencyDetector.limitFrequency: clamp to the Nyquist band. -/
def limitFrequency (pll : PLLFrequencyDetector) (freq : ℝ) : ℝ :=
  let nyquistLimit := pll.sampleRate / 2
  if freq > nyquistLimit then nyquistLimit
  else if freq < -nyquistLimit then -nyquistLimit
  else freq

/-- Go DetectFrequencyPLL: normalize the input to unit magnitude when its
magnitude exceeds 1e-10, otherwise substitute the unit reference (1,0);
mix with the conjugate reference exp(-j*phase), take the angle as the
phase error, run the second-order loop update, clamp the normalized
frequency, wrap the phase, convert to Hz and clamp to Nyquist. -/
def DetectFrequencyPLL (pll : PLLFrequencyDetector) (signal : ℂ) : ℝ × PLLFrequencyDetector :=
  let magnitude := Complex.abs signal
  let signal1 := if magnitude > 1e-10 then signal / (⟨magnitude, 0⟩ : ℂ) else (⟨1, 0⟩ : ℂ)
  let refSignal : ℂ := ⟨Real.cos pll.phase, -Real.sin pll.phase⟩
  let phaseDetectorOutput := signal1 * refSignal
  let phaseError := atan2 phaseDetectorOutput.im phaseDetectorOutput.re
  let pll1 := { pll with
      phase := pll.phase + (pll.frequency + pll.alpha * phaseError)
      frequency := pll.frequency + pll.beta * phaseError }
  let pll2 := limitNormalizedFrequency pll1
  let pll3 := normalizePhase pll2
  let instantaneousFreq := pll3.frequency * pll3.sampleRate / (2 * π)
  (limitFrequency pll3 instantaneousFreq, pll3)

/-- Go ProcessBlockPLL: apply DetectFrequencyPLL sequentially, threading
state. -/
def ProcessBlockPLL (pll : PLLFrequencyDetector) (signals : List ℂ) : List ℝ × PLLFrequencyDetector :=
  match signals with
  | [] => ([], pll)
  | s :: rest =>
      let r := DetectFrequencyPLL pll s
      let rr := ProcessBlockPLL r.2 rest
      (r.1 :: rr.1, rr.2)

/-- Go ResetPLL: zero the phase and the normalized frequency, leaving the
configuration (gains, bandwidth, sample rate) untouched. -/
def ResetPLL (pll : PLLFrequencyDetector) : PLLFrequencyDetector :=
  { pll with phase := 0, frequency := 0 }

/-- Go GetCurrentPhase. -/
def GetCurrentPhase (pll : PLLFrequencyDetector) : ℝ := pll.phase

/-- Go GetCurrentNormalizedFrequency. -/
def GetCurrentNormalizedFrequency (pll : PLLFrequencyDetector) : ℝ := pll.frequency

/-- Go GetCurrentFrequency: normalized frequency converted to Hz. -/
def GetCurrentFrequency (pll : PLLFrequencyDetector) : ℝ :=
  pll.frequency * pll.sampleRate / (2 * π)

end PLLFrequencyDetector

/-- Go FrequencyDetectorConfig. -/
structure FrequencyDetectorConfig where
  SampleRate : ℝ
  SmoothingFactor : ℝ
  UsePLL : Bool
  PLLBandwidth : ℝ

/-- The dynamic result type of the factory (Go returns an empty-interface
value holding either concrete detector). -/
inductive Detector where
  | fd : FrequencyDetector → Detector
  | pll : PLLFrequencyDetector → Detector

/-- Go NewFrequencyDetectorWithConfig: panics (none) when SampleRate ≤ 0;
builds a PLL detector (with default bandwidth SampleRate/100 when the
configured one is non-positive) when UsePLL, otherwise a differentiator
detector with the smoothing factor applied when it is non-negative. -/
def NewFrequencyDetectorWithConfig (config : FrequencyDetectorConfig) : Option Detector :=
  if config.SampleRate ≤ 0 then none
  else if config.UsePLL then
    let bw := if config.PLLBandwidth ≤ 0 then config.SampleRate / 100 else config.PLLBandwidth
    (PLLFrequencyDetector.NewPLLFrequencyDetector config.SampleRate bw).map Detector.pll
  else
    (FrequencyDetector.NewFrequencyDetector config.SampleRate).map
      (fun d => Detector.fd
        (if config.SmoothingFactor ≥ 0 then
          FrequencyDetector.SetSmoothingFactor d config.SmoothingFactor
         else d))

/-- Invariant of the differentiator state used to propagate the Nyquist
bound through exponential smoothing: positive sample rate, smoothing
factor in [0, 1], and a smoothed value already inside the Nyquist band. -/
def FrequencyDetector.DInv (fd : FrequencyDetector) : Prop :=
  0 < fd.sampleRate ∧ 0 ≤ fd.alpha ∧ fd.alpha ≤ 1 ∧
    |fd.smoothedFreq| ≤ fd.sampleRate / 2

theorem sub_rtrunc_lt_one (q : ℝ) : q - rtrunc q < 1 := by
  unfold rtrunc
  split
  · have h := Int.fract_lt_one q
    simp only [Int.fract] at h
    linarith
  · have h := Int.le_ceil q
    linarith

theorem neg_one_lt_sub_rtrunc (q : ℝ) : -1 < q - rtrunc q := by
  unfold rtrunc
  split
  · have h := Int.fract_nonneg q
    simp only [Int.fract] at h
    linarith
  · have h := Int.ceil_lt_add_one q
    linarith

theorem mathMod_eq_mul (x y : ℝ) (hy : y ≠ 0) :
    mathMod x y = y * (x / y - rtrunc (x / y)) := by
  unfold mathMod
  field_simp

theorem mathMod_lt (x y : ℝ) (hy : 0 < y) : mathMod x y < y := by
  rw [mathMod_eq_mul x y (ne_of_gt hy)]
  have h := sub_rtrunc_lt_one (x / y)
  nlinarith

theorem neg_lt_mathMod (x y : ℝ) (hy : 0 < y) : -y < mathMod x y := by
  rw [mathMod_eq_mul x y (ne_of_gt hy)]
  have h := neg_one_lt_sub_rtrunc (x / y)
  nlinarith

namespace PLLFrequencyDetector

theorem normalizePhase_phase_mem (pll : PLLFrequencyDetector) :
    0 ≤ (normalizePhase pll).phase ∧ (normalizePhase pll).phase < 2 * π := by
  have h2 : (0 : ℝ) < 2 * π := Real.two_pi_pos
  have hlt := mathMod_lt pll.phase (2 * π) h2
  have hgt := neg_lt_mathMod pll.phase (2 * π) h2
  simp only [normalizePhase]
  split
  · constructor <;> linarith
  · constructor <;> linarith

theorem normalizePhase_frequency (pll : PLLFrequencyDetector) :
    (normalizePhase pll).frequency = pll.frequency := rfl

theorem normalizePhase_sampleRate (pll : PLLFrequencyDetector) :
    (normalizePhase pll).sampleRate = pll.sampleRate := rfl

theorem limitNormalizedFrequency_mem (pll : PLLFrequencyDetector) :
    -(0.5 : ℝ) ≤ (limitNormalizedFrequency pll).frequency ∧
      (limitNormalizedFrequency pll).frequency ≤ 0.5 := by
  simp only [limitNormalizedFrequency]
  split_ifs with h1 h2
  · constructor <;> norm_num
  · constructor <;> norm_num
  · push_neg at h1 h2
    exact ⟨h2, h1⟩

theorem limitNormalizedFrequency_phase (pll : PLLFrequencyDetector) :
    (limitNormalizedFrequency pll).phase = pll.phase := rfl

theorem limitNormalizedFrequency_sampleRate (pll : PLLFrequencyDetector) :
    (limitNormalizedFrequency pll).sampleRate = pll.sampleRate := rfl

theorem abs_limitFrequency_le (pll : PLLFrequencyDetector) (freq : ℝ)
    (h : 0 < pll.sampleRate) : |limitFrequency pll freq| ≤ pll.sampleRate / 2 := by
  simp only [limitFrequency]
  rw [abs_le]
  split_ifs <;> constructor <;> linarith

theorem DetectFrequencyPLL_snd (pll : PLLFrequencyDetector) (signal : ℂ) :
    ∃ pll1 : PLLFrequencyDetector,
      (DetectFrequencyPLL pll signal).2 = normalizePhase (limitNormalizedFrequency pll1) := by
  exact ⟨_, rfl⟩

theorem DetectFrequencyPLL_state_bounds (pll : PLLFrequencyDetector) (signal : ℂ) :
    0 ≤ (DetectFrequencyPLL pll signal).2.phase ∧
      (DetectFrequencyPLL pll signal).2.phase < 2 * π ∧
      -(0.5 : ℝ) ≤ (DetectFrequencyPLL pll signal).2.frequency ∧
      (DetectFrequencyPLL pll signal).2.frequency ≤ 0.5 := by
  obtain ⟨pll1, hp⟩ := DetectFrequencyPLL_snd pll signal
  rw [hp]
  have h1 := normalizePhase_phase_mem (limitNormalizedFrequency pll1)
  have h2 := limitNormalizedFrequency_mem pll1
  rw [normalizePhase_frequency]
  exact ⟨h1.1, h1.2, h2.1, h2.2⟩

theorem DetectFrequencyPLL_sampleRate (pll : PLLFrequencyDetector) (signal : ℂ) :
    (DetectFrequencyPLL pll signal).2.sampleRate = pll.sampleRate := rfl

theorem abs_DetectFrequencyPLL_fst_le (pll : PLLFrequencyDetector) (signal : ℂ)
    (h : 0 < pll.sampleRate) :
    |(DetectFrequencyPLL pll signal).1| ≤ pll.sampleRate / 2 := by
  exact abs_limitFrequency_le _ _ h

theorem processBlockPLL_final_bounds (signals : List ℂ) :
    ∀ pll : PLLFrequencyDetector, signals ≠ [] →
      0 ≤ (ProcessBlockPLL pll signals).2.phase ∧
        (ProcessBlockPLL pll signals).2.phase < 2 * π ∧
        -(0.5 : ℝ) ≤ (ProcessBlockPLL pll signals).2.frequency ∧
        (ProcessBlockPLL pll signals).2.frequency ≤ 0.5 := by
  induction signals with
  | nil => intro pll hne; exact absurd rfl hne
  | cons s rest ih =>
      intro pll _
      have hstep : (ProcessBlockPLL pll (s :: rest)).2 =
          (ProcessBlockPLL (DetectFrequencyPLL pll s).2 rest).2 := rfl
      cases rest with
      | nil =>
          rw [hstep]
          exact DetectFrequencyPLL_state_bounds pll s
      | cons s2 rest2 =>
          rw [hstep]
          exact ih _ (by simp)

theorem processBlockPLL_outputs_le (signals : List ℂ) :
    ∀ pll : PLLFrequencyDetector, 0 < pll.sampleRate →
      ∀ f ∈ (ProcessBlockPLL pll signals).1, |f| ≤ pll.sampleRate / 2 := by
  induction signals with
  | nil => intro pll _ f hf; simp [ProcessBlockPLL] at hf
  | cons s rest ih =>
      intro pll hsr f hf
      have hcons : (ProcessBlockPLL pll (s :: rest)).1 =
          (DetectFrequencyPLL pll s).1 ::
            (ProcessBlockPLL (DetectFrequencyPLL pll s).2 rest).1 := rfl
      rw [hcons] at hf
      rcases List.mem_cons.mp hf with h | h
      · rw [h]; exact abs_DetectFrequencyPLL_fst_le pll s hsr
      · have hsr2 : 0 < (DetectFrequencyPLL pll s).2.sampleRate := by
          rw [DetectFrequencyPLL_sampleRate]; exact hsr
        have := ih _ hsr2 f h
        rwa [DetectFrequencyPLL_sampleRate] at this
end PLLFrequencyDetector

open FrequencyDetector PLLFrequencyDetector in
/-- C1: for every PLL estimator constructed with sampleRate > 0 and
bandwidth > 0, after every DetectFrequencyPLL update step the state
satisfies phase ∈ [0, 2*pi) and frequency ∈ [-0.5, 0.5]; here the state
after every step is the final state of every nonempty prefix of the
processed sample stream. -/
theorem pll_state_invariant_after_steps (sampleRate bandwidth : ℝ)
    (pll0 : PLLFrequencyDetector)
    (hc : NewPLLFrequencyDetector sampleRate bandwidth = some pll0)
    (signals : List ℂ) (hne : signals ≠ []) :
    0 ≤ (ProcessBlockPLL pll0 signals).2.phase ∧
      (ProcessBlockPLL pll0 signals).2.phase < 2 * π ∧
      -(0.5 : ℝ) ≤ (ProcessBlockPLL pll0 signals).2.frequency ∧
      (ProcessBlockPLL pll0 signals).2.frequency ≤ 0.5 :=
  processBlockPLL_final_bounds signals pll0 hne

open PLLFrequencyDetector in
/-- Witness for C1 at sampleRate 48000, bandwidth 1000 and a singleton
sample stream. -/
theorem pll_state_invariant_after_steps_witness :
    0 ≤ (ProcessBlockPLL (mkPLLFrequencyDetector 48000 1000) [⟨1, 0⟩]).2.phase ∧
      (ProcessBlockPLL (mkPLLFrequencyDetector 48000 1000) [⟨1, 0⟩]).2.phase < 2 * π ∧
      -(0.5 : ℝ) ≤ (ProcessBlockPLL (mkPLLFrequencyDetector 48000 1000) [⟨1, 0⟩]).2.frequency ∧
      (ProcessBlockPLL (mkPLLFrequencyDetector 48000 1000) [⟨1, 0⟩]).2.frequency ≤ 0.5 :=
  pll_state_invariant_after_steps 48000 1000 (mkPLLFrequencyDetector 48000 1000)
    (by norm_num [NewPLLFrequencyDetector]) [⟨1, 0⟩] (by simp)

open FrequencyDetector PLLFrequencyDetector in
/-- C7: construction of a differentiator estimator with sampleRate ≤ 0, of
a PLL estimator with sampleRate ≤ 0 or bandwidth ≤ 0, and of the factory
with sampleRate ≤ 0 fails immediately (modelled as none) and never
produces an instance. -/
theorem invalid_construction_fails (sampleRate bandwidth : ℝ)
    (config : FrequencyDetectorConfig) :
    (sampleRate ≤ 0 → NewFrequencyDetector sampleRate = none) ∧
      (sampleRate ≤ 0 ∨ bandwidth ≤ 0 →
        NewPLLFrequencyDetector sampleRate bandwidth = none) ∧
      (config.SampleRate ≤ 0 → NewFrequencyDetectorWithConfig config = none) := by
  refine ⟨fun h => ?_, fun h => ?_, fun h => ?_⟩
  · simp [NewFrequencyDetector, h]
  · rcases h with h | h
    · simp [NewPLLFrequencyDetector, h]
    · by_cases hsr : sampleRate ≤ 0 <;> simp [NewPLLFrequencyDetector, hsr, h]
  · simp [NewFrequencyDetectorWithConfig, h]

open FrequencyDetector PLLFrequencyDetector in
/-- Witness for C7 at sampleRate 0, bandwidth 0 and a configuration with
SampleRate 0. -/
theorem invalid_construction_fails_witness :
    NewFrequencyDetector 0 = none ∧ NewPLLFrequencyDetector 0 0 = none ∧
      NewFrequencyDetectorWithConfig ⟨0, 0, false, 0⟩ = none :=
  ⟨(invalid_construction_fails 0 0 ⟨0, 0, false, 0⟩).1 (le_refl 0),
    (invalid_construction_fails 0 0 ⟨0, 0, false, 0⟩).2.1 (Or.inl (le_refl 0)),
    (invalid_construction_fails 0 0 ⟨0, 0, false, 0⟩).2.2 (le_refl 0)⟩

open PLLFrequencyDetector in
/-- C8: SetBandwidth with a non-positive argument is a silent no-op that
leaves the whole PLL state unchanged. -/
theorem setBandwidth_nonpositive_noop (pll : PLLFrequencyDetector)
    (bandwidth : ℝ) (h : bandwidth ≤ 0) : SetBandwidth pll bandwidth = pll := by
  simp [SetBandwidth, h]

open PLLFrequencyDetector in
/-- Witness for C8 at the detector constructed with (48000, 1000) and
bandwidth argument 0. -/
theorem setBandwidth_nonpositive_noop_witness :
    SetBandwidth (mkPLLFrequencyDetector 48000 1000) 0 =
      mkPLLFrequencyDetector 48000 1000 :=
  setBandwidth_nonpositive_noop (mkPLLFrequencyDetector 48000 1000) 0 (le_refl 0)

open FrequencyDetector PLLFrequencyDetector in
/-- C9: after Reset, the next DetectFrequency call on a differentiator
returns 0 and the state is cleared (previous sample zero, previous phase
unset, unwrap offset 0, smoothing uninitialized); ResetPLL zeroes phase
and frequency while leaving sampleRate, bandwidth, alpha and beta
unchanged. -/
theorem reset_restores_initial_state :
    (∀ (fd : FrequencyDetector) (s : ℂ),
      (DetectFrequency (Reset fd) s).1 = 0 ∧
        (Reset fd).prevSignal = 0 ∧
        (Reset fd).prevPhase = none ∧
        (Reset fd).unwrapOffset = 0 ∧
        (Reset fd).smoothedFreq = 0 ∧
        (Reset fd).smoothInitialized = false) ∧
      (∀ pll : PLLFrequencyDetector,
        (ResetPLL pll).phase = 0 ∧
          (ResetPLL pll).frequency = 0 ∧
          (ResetPLL pll).sampleRate = pll.sampleRate ∧
          (ResetPLL pll).bandwidth = pll.bandwidth ∧
          (ResetPLL pll).alpha = pll.alpha ∧
          (ResetPLL pll).beta = pll.beta) :=
  ⟨fun fd s => ⟨rfl, rfl, rfl, rfl, rfl, rfl⟩,
    fun pll => ⟨rfl, rfl, rfl, rfl, rfl, rfl⟩⟩

open FrequencyDetector in
/-- C10: Reset leaves the smoothing factor unchanged, while a fresh
differentiator uses the default smoothing factor 0.1; hence a reset
instance whose smoothing factor differs from 0.1 is not state-identical
to a fresh one. -/
theorem reset_keeps_smoothing_factor (fd : FrequencyDetector) (a sampleRate : ℝ) :
    (Reset (SetSmoothingFactor fd a)).alpha = (SetSmoothingFactor fd a).alpha ∧
      (mkFrequencyDetector sampleRate).alpha = 0.1 ∧
      ((SetSmoothingFactor fd a).alpha ≠ 0.1 →
        Reset (SetSmoothingFactor fd a) ≠ mkFrequencyDetector sampleRate) := by
  refine ⟨rfl, rfl, fun h heq => h ?_⟩
  have halpha := congrArg FrequencyDetector.alpha heq
  exact halpha

open FrequencyDetector in
/-- Witness for C10: after setting smoothing factor 0.5 on a fresh
detector at sample rate 2, the reset instance differs from a fresh one. -/
theorem reset_keeps_smoothing_factor_witness :
    Reset (SetSmoothingFactor (mkFrequencyDetector 2) 0.5) ≠ mkFrequencyDetector 2 :=
  (reset_keeps_smoothing_factor (mkFrequencyDetector 2) 0.5 2).2.2
    (by norm_num [SetSmoothingFactor])

open PLLFrequencyDetector in
/-- C3: at construction with positive parameters, and after every
SetBandwidth with a positive argument on a detector with the same sample
rate, the loop gains are alpha = 4*z*w/(4 + 4*z*w + w^2) and
beta = 4*w^2/(4 + 4*z*w + w^2) with z = 0.707 and
w = 2*pi*bandwidth/sampleRate; SetBandwidth yields the same gains and
bandwidth as fresh construction. -/
theorem pll_gain_formulas (sampleRate bandwidth : ℝ)
    (h1 : 0 < sampleRate) (h2 : 0 < bandwidth) :
    NewPLLFrequencyDetector sampleRate bandwidth =
        some (mkPLLFrequencyDetector sampleRate bandwidth) ∧
      (mkPLLFrequencyDetector sampleRate bandwidth).alpha =
        4 * 0.707 * (2 * π * bandwidth / sampleRate) /
          (4 + 4 * 0.707 * (2 * π * bandwidth / sampleRate) +
            (2 * π * bandwidth / sampleRate) ^ 2) ∧
      (mkPLLFrequencyDetector sampleRate bandwidth).beta =
        4 * (2 * π * bandwidth / sampleRate) ^ 2 /
          (4 + 4 * 0.707 * (2 * π * bandwidth / sampleRate) +
            (2 * π * bandwidth / sampleRate) ^ 2) ∧
      ∀ pll : PLLFrequencyDetector, pll.sampleRate = sampleRate →
        (SetBandwidth pll bandwidth).alpha =
            (mkPLLFrequencyDetector sampleRate bandwidth).alpha ∧
          (SetBandwidth pll bandwidth).beta =
            (mkPLLFrequencyDetector sampleRate bandwidth).beta ∧
          (SetBandwidth pll bandwidth).bandwidth =
            (mkPLLFrequencyDetector sampleRate bandwidth).bandwidth := by
  have hb : ¬ bandwidth ≤ 0 := not_le.mpr h2
  refine ⟨?_, ?_, ?_, fun pll hsr => ?_⟩
  · simp only [NewPLLFrequencyDetector]
    rw [if_neg (not_le.mpr h1), if_neg hb]
  · simp only [mkPLLFrequencyDetector]
  · simp only [mkPLLFrequencyDetector]
  · refine ⟨?_, ?_, ?_⟩ <;>
      simp only [SetBandwidth, mkPLLFrequencyDetector, if_neg hb, hsr]

open PLLFrequencyDetector in
/-- Witness for C3 at sampleRate 48000, bandwidth 1000: construction
succeeds with the stated gains. -/
theorem pll_gain_formulas_witness :
    NewPLLFrequencyDetector 48000 1000 = some (mkPLLFrequencyDetector 48000 1000) :=
  (pll_gain_formulas 48000 1000 (by norm_num) (by norm_num)).1

open FrequencyDetector in
/-- C4: the very first DetectFrequency call on a freshly constructed
differentiator returns exactly 0, records the phase of the sample and the
sample itself. -/
theorem first_detect_returns_zero (sampleRate : ℝ) (s : ℂ) (h : 0 < sampleRate) :
    NewFrequencyDetector sampleRate = some (mkFrequencyDetector sampleRate) ∧
      (DetectFrequency (mkFrequencyDetector sampleRate) s).1 = 0 ∧
      (DetectFrequency (mkFrequencyDetector sampleRate) s).2.prevPhase =
        some (calculatePhase s) ∧
      (DetectFrequency (mkFrequencyDetector sampleRate) s).2.prevSignal = s := by
  refine ⟨?_, rfl, rfl, rfl⟩
  simp only [NewFrequencyDetector]
  rw [if_neg (not_le.mpr h)]

open FrequencyDetector in
/-- Witness for C4 at sampleRate 48000 and sample 1 + 0i. -/
theorem first_detect_returns_zero_witness :
    (DetectFrequency (mkFrequencyDetector 48000) ⟨1, 0⟩).1 = 0 :=
  (first_detect_returns_zero 48000 ⟨1, 0⟩ (by norm_num)).2.1

namespace FrequencyDetector

theorem preventUnwrapOverflow_fields (fd : FrequencyDetector) :
    (preventUnwrapOverflow fd).sampleRate = fd.sampleRate ∧
      (preventUnwrapOverflow fd).alpha = fd.alpha ∧
      (preventUnwrapOverflow fd).smoothedFreq = fd.smoothedFreq ∧
      (preventUnwrapOverflow fd).smoothInitialized = fd.smoothInitialized ∧
      (preventUnwrapOverflow fd).prevSignal = fd.prevSignal := by
  simp only [preventUnwrapOverflow]
  split <;> exact ⟨rfl, rfl, rfl, rfl, rfl⟩

theorem computePhaseDifference_fields (fd : FrequencyDetector) (c : ℂ) :
    (computePhaseDifference fd c).2.sampleRate = fd.sampleRate ∧
      (computePhaseDifference fd c).2.alpha = fd.alpha ∧
      (computePhaseDifference fd c).2.smoothedFreq = fd.smoothedFreq ∧
      (computePhaseDifference fd c).2.smoothInitialized = fd.smoothInitialized ∧
      (computePhaseDifference fd c).2.prevSignal = fd.prevSignal := by
  simp only [computePhaseDifference, unwrapPhaseDiff]
  exact preventUnwrapOverflow_fields _

theorem smoothFrequency_fields (fd : FrequencyDetector) (x : ℝ) :
    (smoothFrequency fd x).2.sampleRate = fd.sampleRate ∧
      (smoothFrequency fd x).2.alpha = fd.alpha ∧
      (smoothFrequency fd x).2.prevSignal = fd.prevSignal ∧
      (smoothFrequency fd x).2.prevPhase = fd.prevPhase ∧
      (smoothFrequency fd x).2.unwrapOffset = fd.unwrapOffset := by
  simp only [smoothFrequency]
  split <;> exact ⟨rfl, rfl, rfl, rfl, rfl⟩

theorem abs_limitFrequency_fd_le (fd : FrequencyDetector) (freq : ℝ)
    (h : 0 < fd.sampleRate) : |limitFrequency fd freq| ≤ fd.sampleRate / 2 := by
  simp only [limitFrequency]
  rw [abs_le]
  split_ifs <;> constructor <;> linarith

theorem smoothFrequency_bound (fd : FrequencyDetector) (x N : ℝ)
    (hx : |x| ≤ N) (hs : |fd.smoothedFreq| ≤ N)
    (ha0 : 0 ≤ fd.alpha) (ha1 : fd.alpha ≤ 1) :
    |(smoothFrequency fd x).1| ≤ N ∧ |(smoothFrequency fd x).2.smoothedFreq| ≤ N := by
  simp only [smoothFrequency]
  split
  · exact ⟨hx, hx⟩
  · have hb : |fd.alpha * x + (1 - fd.alpha) * fd.smoothedFreq| ≤ N := by
      rw [abs_le] at hx hs ⊢
      constructor <;> nlinarith [hx.1, hx.2, hs.1, hs.2]
    exact ⟨hb, hb⟩

theorem DetectFrequency_DInv_step (fd : FrequencyDetector) (s : ℂ) (h : DInv fd) :
    |(DetectFrequency fd s).1| ≤ fd.sampleRate / 2 ∧
      DInv (DetectFrequency fd s).2 ∧
      (DetectFrequency fd s).2.sampleRate = fd.sampleRate := by
  obtain ⟨hsr, ha0, ha1, hsf⟩ := h
  cases hp : fd.prevPhase with
  | none =>
      simp only [DetectFrequency, hp]
      refine ⟨by simpa using le_of_lt (by linarith : (0 : ℝ) < fd.sampleRate / 2),
        ⟨hsr, ha0, ha1, hsf⟩, by trivial⟩
  | some p =>
      simp only [DetectFrequency, hp]
      obtain ⟨f1, f2, f3, f4, f5⟩ := computePhaseDifference_fields fd s
      set fd1 := (computePhaseDifference fd s).2 with hfd1
      set limited := limitFrequency fd1
        ((computePhaseDifference fd s).1 * fd1.sampleRate / (2 * π)) with hlim
      have hsr1 : 0 < fd1.sampleRate := by rw [f1]; exact hsr
      have hlb : |limited| ≤ fd.sampleRate / 2 := by
        rw [hlim, ← f1]
        exact abs_limitFrequency_fd_le fd1 _ hsr1
      by_cases hα : fd1.alpha > 0
      · rw [if_pos hα]
        obtain ⟨g1, g2, g3, g4, g5⟩ := smoothFrequency_fields fd1 limited
        have hsb := smoothFrequency_bound fd1 limited (fd.sampleRate / 2) hlb
          (by rw [f3]; exact hsf) (by rw [f2]; exact ha0) (by rw [f2]; exact ha1)
        refine ⟨hsb.1, ⟨?_, ?_, ?_, ?_⟩, ?_⟩
        · show 0 < (smoothFrequency fd1 limited).2.sampleRate
          rw [g1, f1]; exact hsr
        · show 0 ≤ (smoothFrequency fd1 limited).2.alpha
          rw [g2, f2]; exact ha0
        · show (smoothFrequency fd1 limited).2.alpha ≤ 1
          rw [g2, f2]; exact ha1
        · show |(smoothFrequency fd1 limited).2.smoothedFreq| ≤
            (smoothFrequency fd1 limited).2.sampleRate / 2
          rw [g1, f1]; exact hsb.2
        · show (smoothFrequency fd1 limited).2.sampleRate = fd.sampleRate
          rw [g1, f1]
      · rw [if_neg hα]
        refine ⟨hlb, ⟨?_, ?_, ?_, ?_⟩, ?_⟩
        · show 0 < fd1.sampleRate
          exact hsr1
        · show 0 ≤ fd1.alpha
          rw [f2]; exact ha0
        · show fd1.alpha ≤ 1
          rw [f2]; exact ha1
        · show |fd1.smoothedFreq| ≤ fd1.sampleRate / 2
          rw [f3, f1]; exact hsf
        · show fd1.sampleRate = fd.sampleRate
          exact f1

theorem processBlock_outputs_le (signals : List ℂ) :
    ∀ fd : FrequencyDetector, DInv fd →
      ∀ f ∈ (ProcessBlock fd signals).1, |f| ≤ fd.sampleRate / 2 := by
  induction signals with
  | nil => intro fd _ f hf; simp [ProcessBlock] at hf
  | cons s rest ih =>
      intro fd h f hf
      have hcons : (ProcessBlock fd (s :: rest)).1 =
          (DetectFrequency fd s).1 ::
            (ProcessBlock (DetectFrequency fd s).2 rest).1 := rfl
      rw [hcons] at hf
      obtain ⟨hb, hinv, hsr⟩ := DetectFrequency_DInv_step fd s h
      rcases List.mem_cons.mp hf with hh | hh
      · rw [hh]; exact hb
      · have := ih _ hinv f hh
        rwa [hsr] at this

theorem SetSmoothingFactor_DInv (sampleRate a : ℝ) (h : 0 < sampleRate) :
    DInv (SetSmoothingFactor (mkFrequencyDetector sampleRate) a) := by
  refine ⟨h, ?_, ?_, ?_⟩
  · show 0 ≤ (if a < 0 then 0 else if a > 1 then 1 else a)
    split_ifs <;> linarith
  · show (if a < 0 then 0 else if a > 1 then 1 else a) ≤ 1
    split_ifs <;> linarith
  · show |(0 : ℝ)| ≤ sampleRate / 2
    simpa using le_of_lt (by linarith : (0 : ℝ) < sampleRate / 2)

end FrequencyDetector

open FrequencyDetector PLLFrequencyDetector in
/-- C2: every frequency value returned while consuming any finite sample
sequence on a fresh differentiator (with any smoothing factor applied)
or a fresh PLL detector with positive parameters satisfies
the Nyquist bound: the absolute value is at most sampleRate / 2. -/
theorem outputs_within_nyquist (sampleRate bandwidth a : ℝ) (signals : List ℂ)
    (h1 : 0 < sampleRate) (h2 : 0 < bandwidth) :
    (∀ f ∈ (ProcessBlock (SetSmoothingFactor (mkFrequencyDetector sampleRate) a)
        signals).1, |f| ≤ sampleRate / 2) ∧
      (∀ f ∈ (ProcessBlockPLL (mkPLLFrequencyDetector sampleRate bandwidth)
        signals).1, |f| ≤ sampleRate / 2) := by
  constructor
  · intro f hf
    exact processBlock_outputs_le signals _ (SetSmoothingFactor_DInv sampleRate a h1) f hf
  · intro f hf
    exact processBlockPLL_outputs_le signals _ h1 f hf

open FrequencyDetector PLLFrequencyDetector in
/-- Witness for C2 at sampleRate 2, bandwidth 1, smoothing factor 0.5 and
a singleton sample stream: the single output of each detector obeys the
bound. -/
theorem outputs_within_nyquist_witness :
    |(DetectFrequency (SetSmoothingFactor (mkFrequencyDetector 2) 0.5)
        ⟨1, 0⟩).1| ≤ (2 : ℝ) / 2 ∧
      |(DetectFrequencyPLL (mkPLLFrequencyDetector 2 1) ⟨1, 0⟩).1| ≤ (2 : ℝ) / 2 :=
  ⟨(outputs_within_nyquist 2 1 0.5 [⟨1, 0⟩] (by norm_num) (by norm_num)).1 _
      (show _ ∈ [(DetectFrequency (SetSmoothingFactor (mkFrequencyDetector 2) 0.5)
        ⟨1, 0⟩).1] from List.mem_singleton.mpr rfl),
    (outputs_within_nyquist 2 1 0.5 [⟨1, 0⟩] (by norm_num) (by norm_num)).2 _
      (show _ ∈ [(DetectFrequencyPLL (mkPLLFrequencyDetector 2 1) ⟨1, 0⟩).1] from
        List.mem_singleton.mpr rfl)⟩

theorem complex_mk_one : (⟨1, 0⟩ : ℂ) = 1 := by
  apply Complex.ext <;> simp

theorem complex_mk_zero : (⟨0, 0⟩ : ℂ) = 0 := by
  apply Complex.ext <;> simp

theorem atan2_zero_zero : atan2 0 0 = 0 := by
  unfold atan2
  rw [complex_mk_zero]
  exact Complex.arg_zero

open FrequencyDetector PLLFrequencyDetector in
/-- C6: degenerate input is absorbed, never an error: when the input
magnitude is at or below the 1e-10 threshold the PLL runs the very same
computation as with the substituted unit reference (1, 0), and the
differentiator leans on atan2 0 0 = 0, so the raw phase difference of an
all-zero sample is 0; both consume operations are total real-valued
functions in this model, so every output is a (finite) real number. -/
theorem degenerate_input_absorbed :
    (∀ (pll : PLLFrequencyDetector) (s : ℂ), Complex.abs s ≤ 1e-10 →
      DetectFrequencyPLL pll s = DetectFrequencyPLL pll ⟨1, 0⟩) ∧
      atan2 0 0 = 0 ∧
      (∀ fd : FrequencyDetector, (computePhaseDifference fd ⟨0, 0⟩).1 = 0) := by
  refine ⟨fun pll s hs => ?_, atan2_zero_zero, fun fd => ?_⟩
  · have hmag : ¬ (Complex.abs s > 1e-10) := not_lt.mpr hs
    simp only [DetectFrequencyPLL, complex_mk_one, map_one]
    rw [if_neg hmag, if_pos (by norm_num : (1 : ℝ) > 1e-10)]
    norm_num
  · simp only [computePhaseDifference, complex_mk_zero, zero_mul,
      Complex.zero_im, Complex.zero_re, atan2_zero_zero, unwrapPhaseDiff]
    rw [if_neg (not_lt.mpr (le_of_lt Real.pi_pos)),
      if_neg (not_lt.mpr (by linarith [Real.pi_pos] : -π ≤ (0 : ℝ)))]

open PLLFrequencyDetector in
/-- Witness for C6: the zero sample on the detector constructed with
(48000, 1000) takes the unit-reference substitution path. -/
theorem degenerate_input_absorbed_witness :
    DetectFrequencyPLL (mkPLLFrequencyDetector 48000 1000) 0 =
      DetectFrequencyPLL (mkPLLFrequencyDetector 48000 1000) ⟨1, 0⟩ :=
  degenerate_input_absorbed.1 (mkPLLFrequencyDetector 48000 1000) 0
    (by simp only [map_zero]; norm_num)

theorem atan2_cos_sin (θ : ℝ) (h : θ ∈ Set.Ioc (-π) π) :
    atan2 (Real.sin θ) (Real.cos θ) = θ := by
  unfold atan2
  have hmk : (⟨Real.cos θ, Real.sin θ⟩ : ℂ) =
      (Real.cos θ : ℂ) + (Real.sin θ : ℂ) * Complex.I := by
    apply Complex.ext <;> simp [Complex.cos_ofReal_re, Complex.sin_ofReal_re]
  rw [hmk, Complex.ofReal_cos, Complex.ofReal_sin]
  exact Complex.arg_cos_add_sin_mul_I h

theorem cis_mul_conj_re (a b : ℝ) :
    ((⟨Real.cos a, Real.sin a⟩ : ℂ) * ⟨Real.cos b, -Real.sin b⟩).re =
      Real.cos (a - b) := by
  rw [Complex.mul_re]
  show Real.cos a * Real.cos b - Real.sin a * -Real.sin b = Real.cos (a - b)
  rw [Real.cos_sub]
  ring

theorem cis_mul_conj_im (a b : ℝ) :
    ((⟨Real.cos a, Real.sin a⟩ : ℂ) * ⟨Real.cos b, -Real.sin b⟩).im =
      Real.sin (a - b) := by
  rw [Complex.mul_im]
  show Real.cos a * -Real.sin b + Real.sin a * Real.cos b = Real.sin (a - b)
  rw [Real.sin_sub]
  ring

namespace FrequencyDetector

theorem smoothFrequency_unwrapOffset (fd : FrequencyDetector) (x : ℝ) :
    (smoothFrequency fd x).2.unwrapOffset = fd.unwrapOffset := by
  simp only [smoothFrequency]
  split <;> rfl

theorem smoothFrequency_prevPhase (fd : FrequencyDetector) (x : ℝ) :
    (smoothFrequency fd x).2.prevPhase = fd.prevPhase := by
  simp only [smoothFrequency]
  split <;> rfl

theorem computePhaseDifference_cis (fd : FrequencyDetector) (p a b : ℝ)
    (hprev : fd.prevPhase = some p)
    (hre : fd.prevSignal.re = Real.cos b) (him : fd.prevSignal.im = Real.sin b)
    (hd : a - b ∈ Set.Ioc (-π) π)
    (hov : |fd.unwrapOffset + (a - b)| ≤ 1e6 * 2 * π) :
    computePhaseDifference fd ⟨Real.cos a, Real.sin a⟩ =
      (a - b,
        { fd with unwrapOffset := fd.unwrapOffset + (a - b)
                  prevPhase := some (p + (a - b)) }) := by
  simp only [computePhaseDifference, hre, him, cis_mul_conj_re, cis_mul_conj_im,
    atan2_cos_sin (a - b) hd, unwrapPhaseDiff, hprev, Option.map_some']
  rw [if_neg (not_lt.mpr hd.2), if_neg (not_lt.mpr (le_of_lt hd.1))]
  simp only [preventUnwrapOverflow]
  rw [if_neg (not_lt.mpr hov)]

theorem detect_step_unwrap (fd : FrequencyDetector) (p a b : ℝ)
    (hprev : fd.prevPhase = some p)
    (hre : fd.prevSignal.re = Real.cos b) (him : fd.prevSignal.im = Real.sin b)
    (hd : a - b ∈ Set.Ioc (-π) π)
    (hov : |fd.unwrapOffset + (a - b)| ≤ 1e6 * 2 * π) :
    (DetectFrequency fd ⟨Real.cos a, Real.sin a⟩).2.unwrapOffset =
        fd.unwrapOffset + (a - b) ∧
      (DetectFrequency fd ⟨Real.cos a, Real.sin a⟩).2.prevSignal.re = Real.cos a ∧
      (DetectFrequency fd ⟨Real.cos a, Real.sin a⟩).2.prevSignal.im = Real.sin a ∧
      (DetectFrequency fd ⟨Real.cos a, Real.sin a⟩).2.prevPhase = some (p + (a - b)) := by
  have hcp := computePhaseDifference_cis fd p a b hprev hre him hd hov
  simp only [DetectFrequency, hprev, hcp]
  refine ⟨?_, by trivial, by trivial, ?_⟩ <;> split_ifs <;>
    simp [smoothFrequency_unwrapOffset, smoothFrequency_prevPhase]

end FrequencyDetector

open FrequencyDetector in
/-- C5: feeding the three unit-magnitude samples with phases 0, 0.9*pi
and 1.1*pi into a fresh differentiator yields a cumulative unwrap offset
of exactly 1.1*pi: the second raw difference 0.2*pi does not exceed pi,
so no 2*pi correction is applied (exact in the real-number model). -/
theorem unwrap_offset_of_three_phases (sampleRate : ℝ) (h : 0 < sampleRate) :
    (DetectFrequency (DetectFrequency (DetectFrequency (mkFrequencyDetector sampleRate)
            ⟨Real.cos 0, Real.sin 0⟩).2
          ⟨Real.cos (0.9 * π), Real.sin (0.9 * π)⟩).2
        ⟨Real.cos (1.1 * π), Real.sin (1.1 * π)⟩).2.unwrapOffset = 1.1 * π := by
  have hpi := Real.pi_pos
  have hoff1 : (DetectFrequency (mkFrequencyDetector sampleRate)
      ⟨Real.cos 0, Real.sin 0⟩).2.unwrapOffset = 0 := rfl
  have hstep2 := detect_step_unwrap
    (DetectFrequency (mkFrequencyDetector sampleRate) ⟨Real.cos 0, Real.sin 0⟩).2
    (calculatePhase ⟨Real.cos 0, Real.sin 0⟩) (0.9 * π) 0 rfl rfl rfl
    (Set.mem_Ioc.mpr ⟨by linarith, by linarith⟩)
    (by rw [hoff1, abs_of_nonneg (by linarith)]; linarith)
  obtain ⟨h2off, h2re, h2im, h2p⟩ := hstep2
  have hstep3 := detect_step_unwrap
    (DetectFrequency (DetectFrequency (mkFrequencyDetector sampleRate)
        ⟨Real.cos 0, Real.sin 0⟩).2 ⟨Real.cos (0.9 * π), Real.sin (0.9 * π)⟩).2
    (calculatePhase ⟨Real.cos 0, Real.sin 0⟩ + (0.9 * π - 0)) (1.1 * π) (0.9 * π)
    h2p h2re h2im
    (Set.mem_Ioc.mpr ⟨by linarith, by linarith⟩)
    (by rw [h2off, hoff1, abs_of_nonneg (by linarith)]; linarith)
  rw [hstep3.1, h2off, hoff1]
  ring

open FrequencyDetector in
/-- Witness for C5 at sampleRate 48000. -/
theorem unwrap_offset_of_three_phases_witness :
    (DetectFrequency (DetectFrequency (DetectFrequency (mkFrequencyDetector 48000)
            ⟨Real.cos 0, Real.sin 0⟩).2
          ⟨Real.cos (0.9 * π), Real.sin (0.9 * π)⟩).2
        ⟨Real.cos (1.1 * π), Real.sin (1.1 * π)⟩).2.unwrapOffset = 1.1 * π :=
  unwrap_offset_of_three_phases 48000 (by norm_num)

end
